import Mathlib

/-!
Verification development for the lilscript document pipeline
(src/script.rs, src/tex_handler.rs, src/md_handler.rs).

Strings are modelled as `List Char`.  Rust regexes are modelled by
bespoke executable matchers that implement the exact leftmost-first /
lazy / greedy behaviour of the particular pattern they stand for; the
generic `regex_partition` is modelled over the list of matches that
`Regex::find_iter` yields, abstracted by the contract that matches are
in order, non-overlapping and in bounds.
-/

set_option maxRecDepth 10000

/-- CharClass helpers: the ASCII whitespace class `[[:space:]]` of the
regex crate (space, tab, line feed, vertical tab, form feed, carriage
return). -/
def isSpaceAscii (c : Char) : Bool :=
  c = ' ' || c = '\t' || c = '\n' || c = Char.ofNat 11 || c = Char.ofNat 12 || c = '\r'

/-- Unicode White_Space, the set trimmed by Rust `str::trim` and matched
by `char::is_whitespace`. -/
def isRustWS (c : Char) : Bool :=
  isSpaceAscii c || c = Char.ofNat 0x85 || c = Char.ofNat 0xA0 || c = Char.ofNat 0x1680
    || (0x2000 ≤ c.toNat && c.toNat ≤ 0x200A)
    || c = Char.ofNat 0x2028 || c = Char.ofNat 0x2029 || c = Char.ofNat 0x202F
    || c = Char.ofNat 0x205F || c = Char.ofNat 0x3000

/-- Rust `str::trim`: drop Unicode whitespace from both ends. -/
def trimWS (l : List Char) : List Char :=
  ((l.dropWhile isRustWS).reverse.dropWhile isRustWS).reverse

/-- Model of `Regex::new(r"[[:space:]]+").replace_all(s, " ")`: every
maximal run of ASCII whitespace becomes one space.  The boolean state
records whether the previous character belonged to a run. -/
def collapseAux : Bool → List Char → List Char
  | _, [] => []
  | prevWS, c :: cs =>
    if isSpaceAscii c then
      if prevWS then collapseAux true cs else ' ' :: collapseAux true cs
    else c :: collapseAux false cs

/-- Indices (0-based) at which character `ch` occurs in a list. -/
def idxsOf (ch : Char) : List Char → List Nat
  | [] => []
  | c :: cs =>
    if c = ch then 0 :: (idxsOf ch cs).map (· + 1) else (idxsOf ch cs).map (· + 1)

/-- SpanKind of src/script.rs: Normal, Emphasis, InlineDirection. -/
inductive SpanKind
  | normal
  | emphasis
  | inlineDirection
deriving DecidableEq, Repr

/-- TextSpan of src/script.rs: a kind together with the contained text. -/
structure TextSpan where
  kind : SpanKind
  contents : List Char
deriving DecidableEq, Repr

/-- Construct a new span with kind Normal (TextSpan::normal). -/
def TextSpan.normal (contents : List Char) : TextSpan := ⟨SpanKind.normal, contents⟩

/-- Construct a new span with kind Emphasis (TextSpan::emphasis). -/
def TextSpan.emphasis (contents : List Char) : TextSpan := ⟨SpanKind.emphasis, contents⟩

/-- Construct a new span with kind InlineDirection (TextSpan::inline). -/
def TextSpan.inline (contents : List Char) : TextSpan := ⟨SpanKind.inlineDirection, contents⟩

/-- ContainerKind of src/script.rs. -/
inductive ContainerKind
  | spoken
  | stageDir
  | sfx
  | listenerDialogue
  | plainText
deriving DecidableEq, Repr

/-- TextContainer of src/script.rs: one line of the script. -/
structure TextContainer where
  kind : ContainerKind
  spans : List TextSpan
deriving DecidableEq, Repr

/-- WordCount of src/script.rs. -/
structure WordCount where
  spoken : Nat
  unspoken : Nat
deriving DecidableEq, Repr

/-- WordCount::zero. -/
def WordCount.zero : WordCount := ⟨0, 0⟩

/-- WordCount::only_spoken. -/
def WordCount.only_spoken (words : Nat) : WordCount := ⟨words, 0⟩

/-- WordCount::only_unspoken. -/
def WordCount.only_unspoken (words : Nat) : WordCount := ⟨0, words⟩

/-- WordCount::total. -/
def WordCount.total (w : WordCount) : Nat := w.spoken + w.unspoken

/-- Add for WordCount: componentwise addition. -/
instance : Add WordCount := ⟨fun a b => ⟨a.spoken + b.spoken, a.unspoken + b.unspoken⟩⟩

/-- Character class of the word-token regex `[A-Za-zÀ-ÖØ-öø-ÿ'~-]+` in
TextSpan::num_words (Latin letters, the accented Latin-1 ranges, and the
word-internal apostrophe, tilde and hyphen). -/
def isWordChar (c : Char) : Bool :=
  ('A' ≤ c && c ≤ 'Z') || ('a' ≤ c && c ≤ 'z')
    || (0xC0 ≤ c.toNat && c.toNat ≤ 0xD6)
    || (0xD8 ≤ c.toNat && c.toNat ≤ 0xF6)
    || (0xF8 ≤ c.toNat && c.toNat ≤ 0xFF)
    || c = '\'' || c = '~' || c = '-'

/-- Count the maximal runs of word characters (what `find_iter` of the
word-token regex counts).  The Bool records whether we are inside a run. -/
def numWordsAux : Bool → List Char → Nat
  | _, [] => 0
  | inWord, c :: cs =>
    if isWordChar c then (if inWord then 0 else 1) + numWordsAux true cs
    else numWordsAux false cs

/-- TextSpan::num_words: number of word tokens in the contents. -/
def TextSpan.num_words (s : TextSpan) : Nat := numWordsAux false s.contents

/-- TextSpan::is_spoken: spoken only inside a Spoken container and only
when the span is not an inline direction. -/
def TextSpan.is_spoken (s : TextSpan) (context : ContainerKind) : Bool :=
  if context ≠ ContainerKind.spoken then false
  else
    match s.kind with
    | SpanKind.inlineDirection => false
    | _ => true

/-- TextContainer::plain_text: contents joined with single spaces. -/
def TextContainer.plain_text (c : TextContainer) : List Char :=
  List.intercalate " ".toList (c.spans.map TextSpan.contents)

/-- TextContainer::wordcount: each span is routed whole into the spoken
or the unspoken bucket, and the buckets are folded with WordCount
addition. -/
def TextContainer.wordcount (c : TextContainer) : WordCount :=
  (c.spans.map (fun span =>
      let words := span.num_words
      if span.is_spoken c.kind then WordCount.only_spoken words
      else WordCount.only_unspoken words)).foldl (fun acc w => acc + w) WordCount.zero

/-- SeriesEntry of src/script.rs. -/
structure SeriesEntry where
  title : Option (List Char)
  part : Option Nat
deriving DecidableEq, Repr

/-- Character of src/script.rs. -/
structure ScriptCharacter where
  name : List Char
  description : List Char
deriving DecidableEq, Repr

/-- Script of src/script.rs (the `date` stub is kept as an optional
year/month/day triple; the source leaves it `None`). -/
structure Script where
  author : List Char
  title : List Char
  series : SeriesEntry
  tags : List (List Char)
  date : Option (Nat × Nat × Nat)
  summary : List Char
  characters : List ScriptCharacter
  paragraphs : List TextContainer
deriving DecidableEq, Repr

/-- Script::wordcount: fold the container word counts. -/
def Script.wordcount (s : Script) : WordCount :=
  (s.paragraphs.map TextContainer.wordcount).foldl (fun acc w => acc + w) WordCount.zero

/-!  The Normalizer: Tex::unescaped of src/tex_handler.rs.  Each regex
`replace_all` pass becomes one fuel-indexed scanner over the character
list; the fuel is the length of the pass input, which bounds the number
of scanning steps since every step consumes at least one character. -/

/-- Rust `str::replace pat rep`: replace the non-overlapping
left-to-right occurrences of the literal `pat`. -/
def replaceAll (pat rep : List Char) : Nat → List Char → List Char
  | 0, s => s
  | _ + 1, [] => []
  | n + 1, c :: cs =>
    if pat.isPrefixOf (c :: cs) then rep ++ replaceAll pat rep n ((c :: cs).drop pat.length)
    else c :: replaceAll pat rep n cs

/-- Scan for the closing pair of apostrophes of the TeX quote pattern
(the lazy group of ``` ``(.*?)'' ```): the group is the text up to the
first apostrophe pair, and may not cross a line feed. -/
def quoteClose : List Char → Option (List Char × List Char)
  | [] => none
  | [_] => none
  | c :: d :: ds =>
    if c = '\n' then none
    else if c = '\'' && d = '\'' then some ([], ds)
    else (quoteClose (d :: ds)).map (fun p => (c :: p.1, p.2))

/-- Replace_all for ``` ``(.*?)'' ``` with `"$1"`: TeX quotes become
ASCII double quotes. -/
def quotesFix : Nat → List Char → List Char
  | 0, s => s
  | _ + 1, [] => []
  | n + 1, c :: cs =>
    if c = '`' then
      match cs with
      | c2 :: cs2 =>
        if c2 = '`' then
          match quoteClose cs2 with
          | some (inner, rest) => '"' :: inner ++ '"' :: quotesFix n rest
          | none => c :: quotesFix n cs
        else c :: quotesFix n cs
      | [] => [c]
    else c :: quotesFix n cs

/-- Replace_all for `\\([%&$])` with `$1`: un-escape the three special
single characters. -/
def singlesFix : List Char → List Char
  | [] => []
  | [c] => [c]
  | c :: d :: ds =>
    if c = '\\' && (d = '%' || d = '&' || d = '$') then d :: singlesFix ds
    else c :: singlesFix (d :: ds)

/-- Replace_all for a literal command with a greedy optional empty brace
pair, `\\cmd(\{\})?` (used by `\kaosmile` and `\Tilde`). -/
def cmdOptBracesFix (cmd rep : List Char) : Nat → List Char → List Char
  | 0, s => s
  | _ + 1, [] => []
  | n + 1, c :: cs =>
    if cmd.isPrefixOf (c :: cs) then
      let rest := (c :: cs).drop cmd.length
      if ['{', '}'].isPrefixOf rest then rep ++ cmdOptBracesFix cmd rep n (rest.drop 2)
      else rep ++ cmdOptBracesFix cmd rep n rest
    else c :: cmdOptBracesFix cmd rep n cs

/-- Scan for the first `brace-close brace-open` boundary of the href
pattern (the backtracked end of the lazy URL group of
`\\href\{(.*?)\}\{(.*?)\}`); no group may cross a line feed. -/
def hrefBoundary : List Char → Option (List Char × List Char)
  | [] => none
  | [_] => none
  | c :: d :: ds =>
    if c = '\n' then none
    else if c = '}' && d = '{' then some ([], ds)
    else (hrefBoundary (d :: ds)).map (fun p => (c :: p.1, p.2))

/-- Lazy scan to the first closing brace (the TEXT group of the href
pattern); may not cross a line feed. -/
def lazyToBrace : List Char → Option (List Char × List Char)
  | [] => none
  | c :: cs =>
    if c = '\n' then none
    else if c = '}' then some ([], cs)
    else (lazyToBrace cs).map (fun p => (c :: p.1, p.2))

/-- Replace_all for `\\href\{(.*?)\}\{(.*?)\}` with `[$2]($1)`. -/
def hrefFix : Nat → List Char → List Char
  | 0, s => s
  | _ + 1, [] => []
  | n + 1, c :: cs =>
    if ("\\href\x7b".toList).isPrefixOf (c :: cs) then
      match hrefBoundary ((c :: cs).drop 6) with
      | some (url, rest1) =>
        match lazyToBrace rest1 with
        | some (text, rest2) =>
          '[' :: text ++ ']' :: '(' :: url ++ ')' :: hrefFix n rest2
        | none => c :: hrefFix n cs
      | none => c :: hrefFix n cs
    else c :: hrefFix n cs

/-- Tex::unescaped of src/tex_handler.rs: the fixed substitution
sequence (ellipses, quotes, escaped symbols, `\kaosmile`, `\Tilde`,
`\href`), then whitespace-run collapsing and trimming. -/
def Tex.unescaped (s : List Char) : List Char :=
  let s1 := replaceAll "\\ldots\x7b\x7d".toList "... ".toList s.length s
  let s2 := replaceAll "\\ldots".toList "...".toList s1.length s1
  let s3 := replaceAll "\\textellipsis\x7b\x7d".toList "... ".toList s2.length s2
  let s4 := replaceAll "\\textellipsis".toList "...".toList s3.length s3
  let s5 := quotesFix s4.length s4
  let s6 := singlesFix s5
  let s7 := cmdOptBracesFix "\\kaosmile".toList "^_^ ".toList s6.length s6
  let s8 := cmdOptBracesFix "\\Tilde".toList "∼".toList s7.length s7
  let s9 := hrefFix s8.length s8
  trimWS (collapseAux false s9)

/-!  Parse results.  Rust functions returning `Result` are modelled by
`PResult`, with a third outcome for a panic (`unreachable!` or a failed
`unwrap`), which in Rust aborts instead of returning. -/

/-- Outcome of a fallible Rust call: `Ok`, `Err`, or a panic. -/
inductive PResult (ε α : Type) where
  | ok (a : α)
  | err (e : ε)
  | panicked
deriving DecidableEq, Repr

/-!  The Span Classifier: `TryFrom<&Tex> for TextSpan`
(src/tex_handler.rs lines 167 to 194). -/

/-- Match attempt of the span regex `\\(.+)\{(.*)\}` at a position just
after a backslash: `(.+)` is greedy, so the opening-brace candidates
(at index at least 1, inside the newline-free window) are tried from the
rightmost; `(.*)` is greedy, so the closing brace is the last one in its
newline-free window.  Returns the two capture groups. -/
def spanMatchAt (rest : List Char) : Option (List Char × List Char) :=
  let w1 := rest.takeWhile (fun c => c != '\n')
  let js := ((idxsOf '{' w1).filter (fun j => 1 ≤ j)).reverse
  js.findSome? (fun j =>
    let rest2 := rest.drop (j + 1)
    let w2 := rest2.takeWhile (fun c => c != '\n')
    match (idxsOf '}' w2).getLast? with
    | some k => some (rest.take j, rest2.take k)
    | none => none)

/-- Leftmost search of the span regex `\\(.+)\{(.*)\}`: the pattern must
start at a backslash; on failure the start position advances by one
character. -/
def findCmd : List Char → Option (List Char × List Char)
  | [] => none
  | c :: cs =>
    if c = '\\' then
      match spanMatchAt cs with
      | some r => some r
      | none => findCmd cs
    else findCmd cs

/-- TryFrom for TextSpan: unescape, search for an inline command; plain
text becomes a Normal span of the unescaped trimmed original, a command
named `direct` or `ul` becomes an InlineDirection or Emphasis span of
its normalized argument, and any other command name hits the source
`unreachable!`, a panic. -/
def TextSpan.try_from (input : List Char) : PResult (List Char) TextSpan :=
  let text := Tex.unescaped input
  match findCmd text with
  | none => PResult.ok (TextSpan.normal (Tex.unescaped (trimWS input)))
  | some (command, argRaw) =>
    let arg := Tex.unescaped (trimWS argRaw)
    if command = "direct".toList then PResult.ok (TextSpan.inline arg)
    else if command = "ul".toList then PResult.ok (TextSpan.emphasis arg)
    else PResult.panicked

/-!  The Partitioner: `regex_partition` (src/tex_handler.rs lines 285 to
306).  `Regex::find_iter` is abstracted by the list of its matches,
given as half-open byte ranges `(start, end)`; its contract (leftmost
iteration) guarantees the ranges are ordered, non-overlapping and in
bounds, and that each matched text equals the corresponding slice. -/

/-- The find_iter contract for a match list over a string of length
`len`, with running lower bound `i`. -/
def chainOK (len : Nat) : Nat → List (Nat × Nat) → Bool
  | _, [] => true
  | i, (a, b) :: ms => if i ≤ a ∧ a ≤ b ∧ b ≤ len then chainOK len b ms else false

/-- Loop of regex_partition: for each match push the text before it and
the matched block, then push the non-empty tail. -/
def rpAux (s : List Char) : Nat → List (Nat × Nat) → List (List Char)
  | i, [] => if (s.drop i).isEmpty then [] else [s.drop i]
  | i, (a, b) :: ms => ((s.take a).drop i) :: ((s.take b).drop a) :: rpAux s b ms

/-- regex_partition of src/tex_handler.rs: split a string at the given
matches, keeping the delimiters. -/
def regex_partition (ms : List (Nat × Nat)) (s : List Char) : List (List Char) :=
  rpAux s 0 ms

/-!  The container parser: `TryFrom<&Tex> for TextContainer`
(src/tex_handler.rs lines 115 to 165). -/

/-- Match attempt of the lazy inline-command regex `\\.+?\{.*?\}` at a
position whose first character must be a backslash: the opening brace is
the first one at index at least 1 after the backslash inside the
newline-free window, the closing brace the first one after it in its
newline-free window.  Returns the total match length. -/
def inlineMatchLen : List Char → Option Nat
  | [] => none
  | c :: rest =>
    if c = '\\' then
      let w1 := rest.takeWhile (fun c => c != '\n')
      match ((idxsOf '{' w1).filter (fun j => 1 ≤ j)).head? with
      | none => none
      | some j =>
        let w2 := (rest.drop (j + 1)).takeWhile (fun c => c != '\n')
        match (idxsOf '}' w2).head? with
        | none => none
        | some k => some (j + k + 3)
    else none

/-- find_iter for the inline-command regex: scan left to right, emitting
non-overlapping matches and resuming after each match end. -/
def inlineFindIterAux : Nat → List Char → Nat → List (Nat × Nat)
  | 0, _, _ => []
  | _ + 1, [], _ => []
  | n + 1, c :: cs, pos =>
    match inlineMatchLen (c :: cs) with
    | some len => (pos, pos + len) :: inlineFindIterAux n ((c :: cs).drop len) (pos + len)
    | none => inlineFindIterAux n cs (pos + 1)

/-- All matches of the inline-command regex in a string. -/
def inlineFindIter (s : List Char) : List (Nat × Nat) :=
  inlineFindIterAux s.length s 0

/-- Match of the anchored container regex `^\\(.*?)\{(.*)\}$`: a leading
backslash, a lazy command name up to the first opening brace, a greedy
body up to the final closing brace, which must end the line; no group
may cross a line feed. -/
def containerMatch (s : List Char) : Option (List Char × List Char) :=
  match s with
  | '\\' :: rest =>
    let cmd := rest.takeWhile (fun c => c != '{')
    if cmd.any (fun c => c = '\n') then none
    else
      match rest.drop cmd.length with
      | '{' :: rest2 =>
        match rest2.getLast? with
        | some '}' =>
          let body := rest2.dropLast
          if body.any (fun c => c = '\n') then none else some (cmd, body)
        | _ => none
      | _ => none
  | _ => none

/-- The container-kind table of the source, with the lenient PlainText
default; the second component is the list of emitted warnings. -/
def containerKindOf (command : List Char) : ContainerKind × List (List Char) :=
  if command = "spoken".toList then (ContainerKind.spoken, [])
  else if command = "stagedir".toList then (ContainerKind.stageDir, [])
  else if command = "listener".toList then (ContainerKind.listenerDialogue, [])
  else if command = "sfx".toList then (ContainerKind.sfx, [])
  else (ContainerKind.plainText,
    ["Could not identify container kind for command: ".toList ++ command])

/-- Loop over the partition fragments: empty fragments are skipped, the
rest are classified; an Err from the classifier aborts the container (a
panic propagates). -/
def spansOf : List (List Char) → PResult (List Char) (List TextSpan)
  | [] => PResult.ok []
  | s :: rest =>
    if s.isEmpty then spansOf rest
    else
      match TextSpan.try_from s with
      | PResult.ok span =>
        match spansOf rest with
        | PResult.ok spans => PResult.ok (span :: spans)
        | PResult.err e => PResult.err e
        | PResult.panicked => PResult.panicked
      | PResult.err _ =>
        PResult.err ("[TextContainer::try_from<&Tex>] Could not parse span ".toList ++ s)
      | PResult.panicked => PResult.panicked

/-- TryFrom for TextContainer: unescape the line, match the container
command, pick the kind (warning on an unknown command), partition the
body at inline commands and classify every non-empty fragment.  The
result carries the container and the emitted warnings. -/
def TextContainer.try_from (input : List Char) :
    PResult (List Char) (TextContainer × List (List Char)) :=
  let text := Tex.unescaped input
  match containerMatch text with
  | none => PResult.err ("Invalid tex line: ".toList ++ text)
  | some (command, remainder) =>
    let (kind, warns) := containerKindOf command
    match spansOf (regex_partition (inlineFindIter remainder) remainder) with
    | PResult.ok spans => PResult.ok (⟨kind, spans⟩, warns)
    | PResult.err e => PResult.err e
    | PResult.panicked => PResult.panicked

/-!  The Script Assembler: `search_tex`, `SeriesEntry::from` and
`TryFrom<&Tex> for Script` (src/tex_handler.rs lines 196 to 251 and 339
to 353, src/script.rs lines 313 to 343). -/

/-- search_tex: leftmost match of `\\KEY\{(?P<value>.*?)\}` where `KEY`
is the regex-quoted command key; `key` here is the literal text the
quoted pattern matches.  The lazy value group runs to the first closing
brace and may not cross a line feed; on failure the start position
advances by one character. -/
def searchTexAux (key : List Char) : Nat → List Char → Option (List Char)
  | 0, _ => none
  | _ + 1, [] => none
  | n + 1, c :: cs =>
    if ('\\' :: key ++ ['{']).isPrefixOf (c :: cs) then
      let rest := (c :: cs).drop (key.length + 2)
      match (idxsOf '}' (rest.takeWhile (fun c => c != '\n'))).head? with
      | some k => some (rest.take k)
      | none => searchTexAux key n cs
    else searchTexAux key n cs

/-- search_tex of src/tex_handler.rs over the modelled literal key. -/
def search_tex (key s : List Char) : Option (List Char) :=
  searchTexAux key s.length s

/-- captures_iter of the tags regex `\[(.*?)\]`: every non-overlapping
bracketed token, in order, duplicates kept. -/
def bracketTokens : Nat → List Char → List (List Char)
  | 0, _ => []
  | _ + 1, [] => []
  | n + 1, c :: cs =>
    if c = '[' then
      match (idxsOf ']' (cs.takeWhile (fun c => c != '\n'))).head? with
      | some k => cs.take k :: bracketTokens n (cs.drop (k + 1))
      | none => bracketTokens n cs
    else bracketTokens n cs

/-- Numeric value of a digit string (`str::parse::<usize>`; the source
maps a parse failure to 0 with unwrap_or, which over `Nat` cannot occur
for a non-empty digit string that is in range). -/
def digitsToNat (ds : List Char) : Nat :=
  ds.foldl (fun a c => a * 10 + (c.toNat - 48)) 0

/-- Tail test of the series regex `^(.*?) \(Part (\d+)\)$` at a split
point: the rest of the value must be a space, the literal `(Part `, a
non-empty greedy digit run, and a final closing parenthesis. -/
def seriesTail? (rest : List Char) : Option Nat :=
  if (" (Part ".toList).isPrefixOf rest then
    let ds := (rest.drop 7).takeWhile Char.isDigit
    if ds.isEmpty then none
    else if rest.drop (7 + ds.length) = [')'] then some (digitsToNat ds) else none
  else none

/-- Lazy title group of the series regex: try split points left to
right; the title may not cross a line feed. -/
def seriesSplit : List Char → List Char → Option (List Char × Nat)
  | acc, [] =>
    match seriesTail? [] with
    | some n => some (acc.reverse, n)
    | none => none
  | acc, c :: rest2 =>
    match seriesTail? (c :: rest2) with
    | some n => some (acc.reverse, n)
    | none => if c = '\n' then none else seriesSplit (c :: acc) rest2

/-- From for SeriesEntry: the empty value and the two placeholder dashes
give (None, None); otherwise a trailing `(Part N)` suffix is split off,
and a value without it also gives (None, None). -/
def SeriesEntry.from (value : List Char) : SeriesEntry :=
  if value = [] ∨ value = "—".toList ∨ value = "\\textemdash".toList then ⟨none, none⟩
  else
    match seriesSplit [] value with
    | none => ⟨none, none⟩
    | some (title, part) => ⟨some title, some part⟩

/-- Rust `str::split` at a line feed. -/
def splitLines (s : List Char) : List (List Char) :=
  s.foldr
    (fun c acc =>
      match acc with
      | [] => [[c]]
      | line :: restL => if c = '\n' then [] :: line :: restL else (c :: line) :: restL)
    [[]]

/-- Index of the first occurrence of a literal pattern. -/
def findSubAux (pat : List Char) : Nat → List Char → Nat → Option Nat
  | 0, _, _ => none
  | _ + 1, [], _ => none
  | n + 1, c :: cs, pos =>
    if pat.isPrefixOf (c :: cs) then some pos else findSubAux pat n cs (pos + 1)

/-- First occurrence of a literal pattern in a string. -/
def findSub (pat s : List Char) : Option Nat :=
  findSubAux pat s.length s 0

/-- Body loop of the assembler: parse each line as a container, abort on
the first failure, wrapping it with the offending line. -/
def parseParagraphs : List (List Char) → PResult (List Char) (List TextContainer)
  | [] => PResult.ok []
  | line :: rest =>
    match TextContainer.try_from line with
    | PResult.ok (c, _) =>
      match parseParagraphs rest with
      | PResult.ok cs => PResult.ok (c :: cs)
      | PResult.err e => PResult.err e
      | PResult.panicked => PResult.panicked
    | PResult.err e =>
      PResult.err ("[Script::try_from<&Tex>] Could not parse line: \"".toList ++ line
        ++ "\" — via: ".toList ++ e)
    | PResult.panicked => PResult.panicked

/-- Literal text matched by the title pattern key
`renewcommand\{\\SceneName\}` after regex unquoting. -/
def titleKey : List Char := "renewcommand\x7b\\SceneName\x7d".toList

/-- TryFrom for Script (src/tex_handler.rs lines 196 to 251): the five
header lookups run in order, each absence returning the error that
names the field; then the series value is reparsed, the tags value is
split into bracketed tokens, the body starts at the end of the first
page-break marker found by the pattern `\\clearpage` (the literal
marker; document start when absent), the end-of-document marker is
removed everywhere, and the non-empty body lines are parsed in order,
the first failure aborting with the line wrapped in.  `date` and
`characters` stay at their empty defaults. -/
def Script.try_from (text : List Char) : PResult (List Char) Script :=
  match search_tex titleKey text with
  | none => PResult.err "Could not parse title".toList
  | some title =>
    match search_tex "scriptAuthor".toList text with
    | none => PResult.err "Could not parse author".toList
    | some author =>
      match search_tex "scriptSeries".toList text with
      | none => PResult.err "Could not find series".toList
      | some seriesRaw =>
        match search_tex "scriptTags".toList text with
        | none => PResult.err "Could not find tags".toList
        | some tagsRaw =>
          match search_tex "summary".toList text with
          | none => PResult.err "Could not find summary".toList
          | some summary =>
            let series := SeriesEntry.from seriesRaw
            let tags := bracketTokens tagsRaw.length tagsRaw
            let index :=
              match findSub "\\clearpage".toList text with
              | none => 0
              | some i => i + 10
            let bodyRaw := text.drop index
            let body := replaceAll "\\end\x7bdocument\x7d".toList [] bodyRaw.length bodyRaw
            match parseParagraphs ((splitLines body).filter (fun l => !l.isEmpty)) with
            | PResult.ok paragraphs =>
              PResult.ok
                { author := author, title := title, series := series, tags := tags,
                  date := none, summary := summary, characters := [],
                  paragraphs := paragraphs }
            | PResult.err e => PResult.err e
            | PResult.panicked => PResult.panicked

/-!  The Renderer: `ToMarkdown` of src/md_handler.rs. -/

/-- ToMarkdown for TextSpan: Normal unchanged, Emphasis in slashes,
InlineDirection in asterisked parentheses. -/
def TextSpan.to_markdown (s : TextSpan) : List Char :=
  match s.kind with
  | SpanKind.normal => s.contents
  | SpanKind.emphasis => '/' :: s.contents ++ ['/']
  | SpanKind.inlineDirection => "*(".toList ++ s.contents ++ ")*".toList

/-- Rust `str::trim_matches of an asterisk`: strip every leading and
trailing asterisk. -/
def trimMatchesStar (l : List Char) : List Char :=
  ((l.dropWhile (fun c => c = '*')).reverse.dropWhile (fun c => c = '*')).reverse

/-- Per-span text of TextContainer::to_markdown, by parent kind: the
match of the source loop (PlainText verbatim; block wrappers strip the
asterisks of an inline; Spoken bolds Normal and Emphasis spans and
leaves inline directions unchanged). -/
def renderSpanIn (k : ContainerKind) (span : TextSpan) : List Char :=
  match k with
  | ContainerKind.plainText => span.to_markdown
  | ContainerKind.stageDir | ContainerKind.sfx | ContainerKind.listenerDialogue =>
    match span.kind with
    | SpanKind.inlineDirection => trimMatchesStar span.to_markdown
    | _ => span.to_markdown
  | ContainerKind.spoken =>
    match span.kind with
    | SpanKind.normal => "**".toList ++ span.to_markdown ++ "**".toList
    | SpanKind.emphasis => "**".toList ++ span.to_markdown ++ "**".toList
    | SpanKind.inlineDirection => span.to_markdown

/-- One step of the rendering loop of TextContainer::to_markdown: push
the span text between single spaces onto the buffer and, for an Emphasis
span inside a Spoken container, record the warning that cites the span
markdown and the space-joined raw contents of all the container spans. -/
def mdStep (c : TextContainer) (acc : List Char × List (List Char × List Char))
    (span : TextSpan) : List Char × List (List Char × List Char) :=
  (acc.1 ++ ' ' :: renderSpanIn c.kind span ++ [' '],
   if c.kind = ContainerKind.spoken ∧ span.kind = SpanKind.emphasis then
     acc.2 ++ [(span.to_markdown,
       List.intercalate " ".toList (c.spans.map TextSpan.contents))]
   else acc.2)

/-- ToMarkdown for TextContainer, with the emitted warnings made
explicit: the loop writes each span text between single spaces into the
buffer and, for an Emphasis span inside a Spoken container, warns with
the span markdown and the space-joined raw contents of all the spans;
then whitespace runs collapse, the ends are trimmed, and the kind
wrapper is applied. -/
def TextContainer.to_markdown_full (c : TextContainer) :
    List Char × List (List Char × List Char) :=
  let folded := c.spans.foldl (mdStep c) ([], [])
  let buf := trimWS (collapseAux false folded.1)
  let wrapped :=
    match c.kind with
    | ContainerKind.plainText | ContainerKind.spoken => buf
    | ContainerKind.stageDir => "> *[".toList ++ buf ++ "]*".toList
    | ContainerKind.sfx => "> *[sfx: ".toList ++ buf ++ "]*".toList
    | ContainerKind.listenerDialogue => "> *« ".toList ++ buf ++ " »*".toList
  (wrapped, folded.2)

/-- ToMarkdown for TextContainer: the rendered text alone. -/
def TextContainer.to_markdown (c : TextContainer) : List Char :=
  c.to_markdown_full.1

/-- Normalized-piece predicate used to state the single-space joining
law: this core checks that every whitespace character in the list is a
space followed immediately by a non-whitespace character (so no run of
whitespace, no trailing whitespace, no exotic whitespace). -/
def cleanCore : List Char → Bool
  | [] => true
  | c :: cs =>
    if isRustWS c then
      decide (c = ' ') && (match cs with | [] => false | d :: _ => !isRustWS d) && cleanCore cs
    else cleanCore cs

/-- A clean piece: non-empty, starting with non-whitespace, and clean
throughout (hence also ending with non-whitespace). -/
def cleanPiece : List Char → Bool
  | [] => false
  | c :: cs => !isRustWS c && cleanCore (c :: cs)

/-!  Concrete documents used by the claims about the assembler. -/

/-- A minimal valid document: title, author, placeholder series, empty
tags, summary, page break, one spoken line, end marker. -/
def minimalDoc : List Char :=
  ("\\renewcommand\x7b\\SceneName\x7d\x7bMy Title\x7d\n"
    ++ "\\scriptAuthor\x7blilellia\x7d\n"
    ++ "\\scriptSeries\x7b—\x7d\n"
    ++ "\\scriptTags\x7b\x7d\n"
    ++ "\\summary\x7bA short summary.\x7d\n"
    ++ "\\clearpage\n"
    ++ "\\spoken\x7bHello there.\x7d\n"
    ++ "\\end\x7bdocument\x7d\n").toList

/-- The Script the minimal document describes. -/
def minimalScript : Script :=
  { author := "lilellia".toList, title := "My Title".toList,
    series := ⟨none, none⟩, tags := [], date := none,
    summary := "A short summary.".toList, characters := [],
    paragraphs := [⟨ContainerKind.spoken, [TextSpan.normal "Hello there.".toList]⟩] }

/-- The minimal document with the title command removed. -/
def docNoTitle : List Char :=
  ("\\scriptAuthor\x7blilellia\x7d\n"
    ++ "\\scriptSeries\x7b—\x7d\n"
    ++ "\\scriptTags\x7b\x7d\n"
    ++ "\\summary\x7bA short summary.\x7d\n"
    ++ "\\clearpage\n"
    ++ "\\spoken\x7bHello there.\x7d\n"
    ++ "\\end\x7bdocument\x7d\n").toList

/-- The minimal document with the author command removed. -/
def docNoAuthor : List Char :=
  ("\\renewcommand\x7b\\SceneName\x7d\x7bMy Title\x7d\n"
    ++ "\\scriptSeries\x7b—\x7d\n"
    ++ "\\scriptTags\x7b\x7d\n"
    ++ "\\summary\x7bA short summary.\x7d\n"
    ++ "\\clearpage\n"
    ++ "\\spoken\x7bHello there.\x7d\n"
    ++ "\\end\x7bdocument\x7d\n").toList

/-- The minimal document with the series command removed. -/
def docNoSeries : List Char :=
  ("\\renewcommand\x7b\\SceneName\x7d\x7bMy Title\x7d\n"
    ++ "\\scriptAuthor\x7blilellia\x7d\n"
    ++ "\\scriptTags\x7b\x7d\n"
    ++ "\\summary\x7bA short summary.\x7d\n"
    ++ "\\clearpage\n"
    ++ "\\spoken\x7bHello there.\x7d\n"
    ++ "\\end\x7bdocument\x7d\n").toList

/-- The minimal document with the tags command removed. -/
def docNoTags : List Char :=
  ("\\renewcommand\x7b\\SceneName\x7d\x7bMy Title\x7d\n"
    ++ "\\scriptAuthor\x7blilellia\x7d\n"
    ++ "\\scriptSeries\x7b—\x7d\n"
    ++ "\\summary\x7bA short summary.\x7d\n"
    ++ "\\clearpage\n"
    ++ "\\spoken\x7bHello there.\x7d\n"
    ++ "\\end\x7bdocument\x7d\n").toList

/-- The minimal document with the summary command removed. -/
def docNoSummary : List Char :=
  ("\\renewcommand\x7b\\SceneName\x7d\x7bMy Title\x7d\n"
    ++ "\\scriptAuthor\x7blilellia\x7d\n"
    ++ "\\scriptSeries\x7b—\x7d\n"
    ++ "\\scriptTags\x7b\x7d\n"
    ++ "\\clearpage\n"
    ++ "\\spoken\x7bHello there.\x7d\n"
    ++ "\\end\x7bdocument\x7d\n").toList

/-!  Theorems.  General list lemmas first. -/

/-- Taking the length of the left part of an append returns it. -/
theorem take_len_append {α : Type} (l1 l2 : List α) : (l1 ++ l2).take l1.length = l1 := by
  induction l1 with
  | nil => rfl
  | cons c cs ih => simp [ih]

/-- Dropping the length of the left part of an append returns the right
part. -/
theorem drop_len_append {α : Type} (l1 l2 : List α) : (l1 ++ l2).drop l1.length = l2 := by
  induction l1 with
  | nil => rfl
  | cons c cs ih => simp [ih]

/-- takeWhile over a list all of whose elements satisfy the predicate. -/
theorem takeWhile_all {α : Type} (p : α → Bool) (l : List α)
    (h : ∀ c ∈ l, p c = true) : l.takeWhile p = l := by
  induction l with
  | nil => rfl
  | cons c cs ih =>
    have hc : p c = true := h c (by simp)
    have ih2 := ih (fun d hd => h d (List.mem_cons_of_mem _ hd))
    simp [List.takeWhile_cons, hc, ih2]

/-- Unfolding of WordCount addition. -/
theorem WordCount.add_def (a b c d : Nat) :
    (⟨a, b⟩ + ⟨c, d⟩ : WordCount) = ⟨a + c, b + d⟩ := rfl

/-- C8: WordCount values form a commutative monoid under addition with
identity zero, and total is the sum of the two components. -/
theorem claim_C8 :
    ∀ a b c : WordCount,
      (a + b) + c = a + (b + c) ∧ a + b = b + a ∧
      WordCount.zero + a = a ∧ a + WordCount.zero = a ∧
      a.total = a.spoken + a.unspoken := by
  intro a b c
  obtain ⟨a1, a2⟩ := a
  obtain ⟨b1, b2⟩ := b
  obtain ⟨c1, c2⟩ := c
  refine ⟨?_, ?_, ?_, ?_, rfl⟩ <;>
    simp [WordCount.zero, WordCount.add_def] <;> omega

/-- A list with no word character yields zero tokens, whatever the run
state. -/
theorem numWordsAux_zero (l : List Char) (h : ∀ c ∈ l, isWordChar c = false) :
    ∀ b : Bool, numWordsAux b l = 0 := by
  induction l with
  | nil => intro b; rfl
  | cons c cs ih =>
    intro b
    have hc : isWordChar c = false := h c (by simp)
    have ih2 := ih (fun d hd => h d (List.mem_cons_of_mem _ hd))
    simp [numWordsAux, hc, ih2]

/-- C9: a span whose contents contain no character of the Latin token
class counts exactly zero words. -/
theorem claim_C9 (s : TextSpan) (h : ∀ c ∈ s.contents, isWordChar c = false) :
    s.num_words = 0 :=
  numWordsAux_zero s.contents h false

/-- Witness for C9 at a concrete all-Japanese span. -/
theorem claim_C9_witness :
    (∀ c ∈ "ねぇ、大丈夫？".toList, isWordChar c = false) ∧
      (TextSpan.normal "ねぇ、大丈夫？".toList).num_words = 0 :=
  ⟨by decide, claim_C9 (TextSpan.normal "ねぇ、大丈夫？".toList) (by decide)⟩

/-- Spoken component of a WordCount fold. -/
theorem foldl_add_spoken (ws : List WordCount) :
    ∀ init : WordCount,
      (ws.foldl (fun acc w => acc + w) init).spoken = init.spoken + (ws.map WordCount.spoken).sum := by
  induction ws with
  | nil => intro init; simp
  | cons w ws ih =>
    intro init
    obtain ⟨i1, i2⟩ := init
    obtain ⟨w1, w2⟩ := w
    simp [List.foldl_cons, WordCount.add_def, ih]
    omega

/-- Unspoken component of a WordCount fold. -/
theorem foldl_add_unspoken (ws : List WordCount) :
    ∀ init : WordCount,
      (ws.foldl (fun acc w => acc + w) init).unspoken = init.unspoken + (ws.map WordCount.unspoken).sum := by
  induction ws with
  | nil => intro init; simp
  | cons w ws ih =>
    intro init
    obtain ⟨i1, i2⟩ := init
    obtain ⟨w1, w2⟩ := w
    simp [List.foldl_cons, WordCount.add_def, ih]
    omega

/-- Spoken bucket of the per-span routing: only the spans spoken in
context contribute. -/
theorem routed_spoken (k : ContainerKind) (spans : List TextSpan) :
    (spans.map (fun span =>
        (if span.is_spoken k then WordCount.only_spoken span.num_words
         else WordCount.only_unspoken span.num_words).spoken)).sum
      = ((spans.filter (fun s => s.is_spoken k)).map TextSpan.num_words).sum := by
  induction spans with
  | nil => rfl
  | cons span spans ih =>
    cases h : span.is_spoken k <;>
      · simp only [List.map_cons, List.sum_cons, List.filter_cons, h, Bool.false_eq_true,
          if_false, if_true]
        rw [ih]
        simp [WordCount.only_spoken, WordCount.only_unspoken]

/-- Unspoken bucket of the per-span routing: only the spans not spoken
in context contribute. -/
theorem routed_unspoken (k : ContainerKind) (spans : List TextSpan) :
    (spans.map (fun span =>
        (if span.is_spoken k then WordCount.only_spoken span.num_words
         else WordCount.only_unspoken span.num_words).unspoken)).sum
      = ((spans.filter (fun s => !s.is_spoken k)).map TextSpan.num_words).sum := by
  induction spans with
  | nil => rfl
  | cons span spans ih =>
    cases h : span.is_spoken k <;>
      · simp only [List.map_cons, List.sum_cons, List.filter_cons, h, Bool.false_eq_true,
          if_false, if_true, Bool.not_false, Bool.not_true]
        rw [ih]
        simp [WordCount.only_spoken, WordCount.only_unspoken]

/-- C7: a span is spoken exactly when the parent container is Spoken
and the span is not an inline direction; every span is routed whole into
one bucket, a container counts the sums over its spans, and the document
counts the sums over its containers. -/
theorem claim_C7 :
    (∀ (s : TextSpan) (k : ContainerKind),
        s.is_spoken k = true ↔ (k = ContainerKind.spoken ∧ s.kind ≠ SpanKind.inlineDirection)) ∧
    (∀ c : TextContainer,
        c.wordcount.spoken = ((c.spans.filter (fun s => s.is_spoken c.kind)).map TextSpan.num_words).sum ∧
        c.wordcount.unspoken = ((c.spans.filter (fun s => !s.is_spoken c.kind)).map TextSpan.num_words).sum) ∧
    (∀ sc : Script,
        sc.wordcount.spoken = (sc.paragraphs.map (fun c => c.wordcount.spoken)).sum ∧
        sc.wordcount.unspoken = (sc.paragraphs.map (fun c => c.wordcount.unspoken)).sum) := by
  refine ⟨?_, ?_, ?_⟩
  · intro s k
    cases k <;> cases hk : s.kind <;>
      simp [TextSpan.is_spoken, hk]
  · intro c
    constructor
    · rw [TextContainer.wordcount, foldl_add_spoken, List.map_map]
      simp only [Function.comp, WordCount.zero, Nat.zero_add]
      exact routed_spoken c.kind c.spans
    · rw [TextContainer.wordcount, foldl_add_unspoken, List.map_map]
      simp only [Function.comp, WordCount.zero, Nat.zero_add]
      exact routed_unspoken c.kind c.spans
  · intro sc
    constructor
    · rw [Script.wordcount, foldl_add_spoken, List.map_map]
      simp only [WordCount.zero, Nat.zero_add]
      rfl
    · rw [Script.wordcount, foldl_add_unspoken, List.map_map]
      simp only [WordCount.zero, Nat.zero_add]
      rfl

/-- C1: at span position the unknown command name `foo` does NOT
produce a recoverable error: the classifier reaches the source
`unreachable!` and panics; at container position the same unknown name
is accepted as PlainText with the warning that names the command.  The
first conjunct exhibits the code behaviour that contradicts the claim
(a crash where the claim requires an UnknownInlineCommand error), the
second proves the container half of the claim. -/
theorem claim_C1 :
    TextSpan.try_from "\\foo\x7bx\x7d".toList = PResult.panicked ∧
    TextContainer.try_from "\\foo\x7bbody\x7d".toList =
      PResult.ok (⟨ContainerKind.plainText, [TextSpan.normal "body".toList]⟩,
        ["Could not identify container kind for command: foo".toList]) := by
  constructor <;> decide

/-- C3: the minimal valid document (title, author, placeholder series,
empty tags, summary, one spoken line) assembles successfully via
Script::try_from into exactly the claimed Script, with series
(None, None), empty tags, and exactly one paragraph. -/
theorem claim_C3 :
    Script.try_from minimalDoc = PResult.ok minimalScript ∧
    minimalScript.series = ⟨none, none⟩ ∧
    minimalScript.tags = [] ∧
    minimalScript.paragraphs.length = 1 := by
  refine ⟨by decide, rfl, rfl, rfl⟩

/-- C4 counterexample: the assembler extracts five fields, not six.
The minimal valid document carries only the five commands (title,
author, series, tags, summary) and no sixth metadata command, yet
Script::try_from assembles it successfully with no missing-field
error of any kind; were a sixth extracted field mandatory, its absence
here would have forced a MissingField error naming it. -/
theorem claim_C4_counterexample :
    Script.try_from minimalDoc = PResult.ok minimalScript := by
  decide

/-- C4 (amended): the five extracted metadata fields are mandatory;
removing any one of them from the otherwise-valid minimal document makes
Script::try_from fail with the error naming that field, and no Script is
produced. -/
theorem claim_C4 :
    Script.try_from docNoTitle = PResult.err "Could not parse title".toList ∧
    Script.try_from docNoAuthor = PResult.err "Could not parse author".toList ∧
    Script.try_from docNoSeries = PResult.err "Could not find series".toList ∧
    Script.try_from docNoTags = PResult.err "Could not find tags".toList ∧
    Script.try_from docNoSummary = PResult.err "Could not find summary".toList := by
  refine ⟨by decide, by decide, by decide, by decide, by decide⟩

/-- Glueing a middle slice back onto the tail it was cut from. -/
theorem slice_glue (s : List Char) (x y : Nat) (hxy : x ≤ y) (hy : y ≤ s.length) :
    (s.take y).drop x ++ s.drop y = s.drop x := by
  conv_rhs => rw [← List.take_append_drop y s]
  rw [List.drop_append_of_le_length]
  rw [List.length_take]
  omega

/-- The partition loop is lossless from any cursor consistent with the
match chain. -/
theorem rpAux_join (s : List Char) (ms : List (Nat × Nat)) :
    ∀ i : Nat, chainOK s.length i ms = true → (rpAux s i ms).flatten = s.drop i := by
  induction ms with
  | nil =>
    intro i _
    by_cases h : (s.drop i).isEmpty
    · simp [rpAux, h, List.isEmpty_iff.mp h]
    · simp [rpAux, h]
  | cons m ms ih =>
    intro i h
    obtain ⟨a, b⟩ := m
    simp only [chainOK] at h
    split at h
    case isFalse => exact absurd h (by simp)
    case isTrue hcond =>
      obtain ⟨h1, h2, h3⟩ := hcond
      simp only [rpAux, List.flatten_cons]
      rw [ih b h, slice_glue s a b h2 h3,
        slice_glue s i a h1 (le_trans h2 h3)]

/-- C2: concatenating in order all segments emitted by regex_partition
reproduces the input exactly, for every string and every match list
satisfying the find_iter contract (ordered, non-overlapping, in-bounds
matches, which every regex search yields). -/
theorem claim_C2 (s : List Char) (ms : List (Nat × Nat))
    (h : chainOK s.length 0 ms = true) : (regex_partition ms s).flatten = s := by
  have := rpAux_join s ms 0 h
  simpa [regex_partition] using this

/-- Witness for C2 at the partition doctest of the source: the matches
of the pattern of one or more C characters in ABCCQBCPCCC. -/
theorem claim_C2_witness :
    chainOK ("ABCCQBCPCCC".toList).length 0 [(2, 4), (6, 7), (8, 11)] = true ∧
      (regex_partition [(2, 4), (6, 7), (8, 11)] "ABCCQBCPCCC".toList).flatten
        = "ABCCQBCPCCC".toList :=
  ⟨by decide, claim_C2 "ABCCQBCPCCC".toList [(2, 4), (6, 7), (8, 11)] (by decide)⟩

/-- The rendering fold, characterized: the buffer accumulates each span
text between single spaces, and the warning list accumulates one entry
per Emphasis span of a Spoken container. -/
theorem mdStep_fold (c : TextContainer) (spans : List TextSpan) :
    ∀ acc : List Char × List (List Char × List Char),
      spans.foldl (mdStep c) acc
        = (acc.1 ++ (spans.map (fun s => ' ' :: renderSpanIn c.kind s ++ [' '])).flatten,
           acc.2 ++ (spans.filter (fun s =>
               decide (c.kind = ContainerKind.spoken ∧ s.kind = SpanKind.emphasis))).map
             (fun s => (s.to_markdown,
               List.intercalate " ".toList (c.spans.map TextSpan.contents)))) := by
  induction spans with
  | nil => intro acc; simp
  | cons span spans ih =>
    intro acc
    rw [List.foldl_cons, ih]
    by_cases h : c.kind = ContainerKind.spoken ∧ span.kind = SpanKind.emphasis
    · simp [mdStep, h, List.filter_cons]
    · simp [mdStep, h, List.filter_cons]

/-- The warning component of the rendered container. -/
theorem to_markdown_full_snd (c : TextContainer) :
    c.to_markdown_full.2
      = (c.spans.filter (fun s =>
            decide (c.kind = ContainerKind.spoken ∧ s.kind = SpanKind.emphasis))).map
          (fun s => (s.to_markdown,
            List.intercalate " ".toList (c.spans.map TextSpan.contents))) := by
  simp only [TextContainer.to_markdown_full, mdStep_fold, List.nil_append]

/-- Whitespace of the ASCII class is Unicode whitespace. -/
theorem ascii_ws_rust (c : Char) (h : isSpaceAscii c = true) : isRustWS c = true := by
  simp [isRustWS, h]

/-- Collapsing after a pending space: a leading space is skipped. -/
theorem collapse_true_space (x : List Char) :
    collapseAux true (' ' :: x) = collapseAux true x := by
  simp [collapseAux, isSpaceAscii]

/-- Collapsing with no pending space: a leading space is kept once. -/
theorem collapse_false_space (x : List Char) :
    collapseAux false (' ' :: x) = ' ' :: collapseAux true x := by
  simp [collapseAux, isSpaceAscii]

/-- A non-whitespace head resets the run state. -/
theorem collapse_nonws (b : Bool) (d : Char) (hd : isRustWS d = false) (x : List Char) :
    collapseAux b (d :: x) = d :: collapseAux false x := by
  have hda : isSpaceAscii d = false := by
    cases hsa : isSpaceAscii d
    · rfl
    · exact absurd (ascii_ws_rust d hsa) (by simp [hd])
  simp [collapseAux, hda]

/-- The tail of a clean list is clean. -/
theorem cleanCore_tail (c : Char) (cs : List Char) (h : cleanCore (c :: cs) = true) :
    cleanCore cs = true := by
  by_cases hc : isRustWS c = true
  · simp only [cleanCore, hc, if_true, Bool.and_eq_true] at h
    exact h.2
  · have hc2 : isRustWS c = false := by simpa using hc
    simpa only [cleanCore, hc2, Bool.false_eq_true, if_false] using h

/-- The head of a clean piece is non-whitespace (and the piece is
non-empty and clean throughout). -/
theorem cleanPiece_cases (p : List Char) (h : cleanPiece p = true) :
    p ≠ [] ∧ (∀ a, p.head? = some a → isRustWS a = false) ∧ cleanCore p = true := by
  cases p with
  | nil => exact absurd h (by simp [cleanPiece])
  | cons a p2 =>
    simp only [cleanPiece, Bool.and_eq_true, Bool.not_eq_true'] at h
    refine ⟨by simp, ?_, h.2⟩
    intro x hx
    simp only [List.head?_cons, Option.some.injEq] at hx
    subst hx
    exact h.1

/-- Collapsing commutes across a clean chunk: the chunk comes out
verbatim and the scanner continues in reset state. -/
theorem cleanCommute (p : List Char) :
    cleanCore p = true → ∀ rest, collapseAux false (p ++ rest) = p ++ collapseAux false rest := by
  induction p with
  | nil => intro _ rest; simp
  | cons c cs ih =>
    intro h rest
    by_cases hc : isRustWS c = true
    · simp only [cleanCore, hc, if_true, Bool.and_eq_true] at h
      obtain ⟨⟨hsp, hnext⟩, hcs⟩ := h
      have hcsp : c = ' ' := by simpa using hsp
      subst hcsp
      cases cs with
      | nil => simp at hnext
      | cons d ds =>
        have hdn : isRustWS d = false := by simpa using hnext
        have ihh2 : collapseAux false (ds ++ rest) = ds ++ collapseAux false rest := by
          have ihh := ih hcs rest
          rw [List.cons_append, collapse_nonws false d hdn, List.cons_append] at ihh
          injection ihh with h1 h2
        rw [List.cons_append, collapse_false_space, List.cons_append,
          collapse_nonws true d hdn]
        simp [ihh2]
    · have hc2 : isRustWS c = false := by simpa using hc
      have hcs : cleanCore cs = true := cleanCore_tail c cs h
      rw [List.cons_append, collapse_nonws false c hc2, ih hcs rest]
      simp

/-- Collapsing a clean piece in pending-space state also emits the piece
verbatim: the non-whitespace head cancels the pending space. -/
theorem collapse_true_piece (p : List Char) (h : cleanPiece p = true) (rest : List Char) :
    collapseAux true (p ++ rest) = p ++ collapseAux false rest := by
  obtain ⟨hne, hhead, hcore⟩ := cleanPiece_cases p h
  cases p with
  | nil => exact absurd rfl hne
  | cons a p2 =>
    have ha : isRustWS a = false := hhead a rfl
    have hcom : collapseAux false (p2 ++ rest) = p2 ++ collapseAux false rest := by
      have hfull := cleanCommute (a :: p2) hcore rest
      rw [List.cons_append, collapse_nonws false a ha, List.cons_append] at hfull
      injection hfull with h1 h2
    rw [List.cons_append, collapse_nonws true a ha]
    simp [hcom]

/-- Collapsing the space-wrapped flatten of clean pieces in pending
state: the pieces come out joined by single spaces, with one trailing
space when there is at least one piece. -/
theorem flatten_collapse_true (pieces : List (List Char)) :
    (∀ p ∈ pieces, cleanPiece p = true) →
      collapseAux true ((pieces.map (fun p => ' ' :: p ++ [' '])).flatten)
        = List.intercalate " ".toList pieces ++ (if pieces.isEmpty then [] else [' ']) := by
  induction pieces with
  | nil => intro _; simp [List.intercalate, collapseAux]
  | cons p rest ih =>
    intro h
    have hp := h p (by simp)
    have hrest : ∀ q ∈ rest, cleanPiece q = true := fun q hq => h q (by simp [hq])
    simp only [List.map_cons, List.flatten_cons]
    rw [show (' ' :: p ++ [' ']) ++ ((rest.map (fun p => ' ' :: p ++ [' '])).flatten)
        = ' ' :: (p ++ (' ' :: (rest.map (fun p => ' ' :: p ++ [' '])).flatten)) from by simp,
      collapse_true_space, collapse_true_piece p hp, collapse_false_space, ih hrest]
    cases rest with
    | nil => simp [List.intercalate]
    | cons q t =>
      rw [show List.intercalate " ".toList (p :: q :: t)
          = p ++ " ".toList ++ List.intercalate " ".toList (q :: t) from by
        simp [List.intercalate, List.intersperse_cons_cons]]
      simp

/-- The last character of a clean list is non-whitespace. -/
theorem cleanCore_last (p : List Char) :
    cleanCore p = true → ∀ z, p.getLast? = some z → isRustWS z = false := by
  induction p with
  | nil => intro _ z hz; simp at hz
  | cons c cs ih =>
    intro h z hz
    cases cs with
    | nil =>
      have hz2 : c = z := by simpa using hz
      subst hz2
      by_cases hc : isRustWS c = true
      · exfalso
        simp [cleanCore, hc] at h
      · simpa using hc
    | cons d ds =>
      have hcs : cleanCore (d :: ds) = true := cleanCore_tail c (d :: ds) h
      exact ih hcs z (by rwa [List.getLast?_cons_cons] at hz)

/-- Trimming a singly-space-wrapped list whose ends are non-whitespace
recovers the list. -/
theorem trim_wrap (A : List Char)
    (hhead : ∀ a, A.head? = some a → isRustWS a = false)
    (hlast : ∀ z, A.getLast? = some z → isRustWS z = false)
    (hne : A ≠ []) :
    trimWS (' ' :: A ++ [' ']) = A := by
  cases A with
  | nil => exact absurd rfl hne
  | cons a A2 =>
    have ha : isRustWS a = false := hhead a rfl
    have hsp : isRustWS ' ' = true := by decide
    unfold trimWS
    rw [List.cons_append, List.dropWhile_cons, if_pos hsp, List.cons_append,
      List.dropWhile_cons, if_neg (by simp [ha])]
    rw [show ((a :: (A2 ++ [' '])).reverse) = ' ' :: (a :: A2).reverse from by simp]
    rw [List.dropWhile_cons, if_pos hsp]
    rcases hrev : (a :: A2).reverse with _ | ⟨z, B⟩
    · exact absurd (congrArg List.length hrev) (by simp)
    · have hz : (a :: A2).getLast? = some z := by
        rw [← List.head?_reverse, hrev, List.head?_cons]
      have hznw : isRustWS z = false := hlast z hz
      rw [List.dropWhile_cons, if_neg (by simp [hznw]), ← hrev, List.reverse_reverse]

/-- The head of the space-intercalation of clean pieces is the head of
the first piece. -/
theorem intercalate_head (p : List Char) (rest : List (List Char)) (hne : p ≠ []) :
    (List.intercalate " ".toList (p :: rest)).head? = p.head? := by
  cases rest with
  | nil =>
    simp [List.intercalate]
  | cons q t =>
    rw [show List.intercalate " ".toList (p :: q :: t)
        = p ++ " ".toList ++ List.intercalate " ".toList (q :: t) from by
      simp [List.intercalate, List.intersperse_cons_cons]]
    cases p with
    | nil => exact absurd rfl hne
    | cons a p2 => simp

/-- The last element of the space-intercalation of clean pieces is the
last element of the last piece, hence non-whitespace. -/
theorem intercalate_last (pieces : List (List Char)) :
    (∀ p ∈ pieces, cleanPiece p = true) →
      ∀ z, (List.intercalate " ".toList pieces).getLast? = some z → isRustWS z = false := by
  induction pieces with
  | nil => intro _ z hz; simp [List.intercalate] at hz
  | cons p rest ih =>
    intro h z hz
    obtain ⟨hne, _, hcore⟩ := cleanPiece_cases p (h p (by simp))
    cases rest with
    | nil =>
      simp only [List.intercalate, List.intersperse_singleton, List.flatten_cons,
        List.flatten_nil, List.append_nil] at hz
      exact cleanCore_last p hcore z hz
    | cons q t =>
      rw [show List.intercalate " ".toList (p :: q :: t)
          = p ++ " ".toList ++ List.intercalate " ".toList (q :: t) from by
        simp [List.intercalate, List.intersperse_cons_cons]] at hz
      have hqt : List.intercalate " ".toList (q :: t) ≠ [] := by
        obtain ⟨hqne, _, _⟩ := cleanPiece_cases q (h q (by simp))
        intro hcontra
        have := intercalate_head q t hqne
        rw [hcontra] at this
        cases q with
        | nil => exact absurd rfl hqne
        | cons b q2 => simp at this
      rw [List.append_assoc, List.getLast?_append_of_ne_nil p (by simp [hqt]),
        List.getLast?_append_of_ne_nil _ hqt] at hz
      exact ih (fun q hq => h q (by simp [hq])) z hz

/-- Joining clean pieces: writing each piece between single spaces,
collapsing whitespace runs and trimming is exactly the single-space
intercalation of the pieces. -/
theorem joinClean (pieces : List (List Char)) (h : ∀ p ∈ pieces, cleanPiece p = true) :
    trimWS (collapseAux false ((pieces.map (fun p => ' ' :: p ++ [' '])).flatten))
      = List.intercalate " ".toList pieces := by
  cases pieces with
  | nil => rfl
  | cons p rest =>
    obtain ⟨hne, hhead, hcore⟩ := cleanPiece_cases p (h p (by simp))
    simp only [List.map_cons, List.flatten_cons]
    rw [show (' ' :: p ++ [' ']) ++ ((rest.map (fun p => ' ' :: p ++ [' '])).flatten)
        = ' ' :: (p ++ (' ' :: (rest.map (fun p => ' ' :: p ++ [' '])).flatten)) from by simp,
      collapse_false_space, collapse_true_piece p (h p (by simp)), collapse_false_space]
    have hrest : ∀ q ∈ rest, cleanPiece q = true := fun q hq => h q (by simp [hq])
    rw [flatten_collapse_true rest hrest]
    rw [show p ++ (' ' :: (List.intercalate " ".toList rest
          ++ if rest.isEmpty then [] else [' '])) -- reassemble into wrapped intercalation
        = (List.intercalate " ".toList (p :: rest)) ++ [' '] from ?_]
    · exact trim_wrap _
        (by
          intro a ha
          rw [intercalate_head p rest hne] at ha
          exact hhead a ha)
        (intercalate_last (p :: rest) h)
        (by
          intro hcontra
          have := intercalate_head p rest hne
          rw [hcontra] at this
          cases p with
          | nil => exact absurd rfl hne
          | cons a p2 => simp at this)
    · cases rest with
      | nil => simp [List.intercalate]
      | cons q t =>
        rw [show List.intercalate " ".toList (p :: q :: t)
            = p ++ " ".toList ++ List.intercalate " ".toList (q :: t) from by
          simp [List.intercalate, List.intersperse_cons_cons]]
        simp

/-- The rendered StageDir container is the wrapped collapse-trim of its
space-interleaved span texts. -/
theorem to_markdown_stageDir (spans : List TextSpan) :
    TextContainer.to_markdown ⟨ContainerKind.stageDir, spans⟩
      = "> *[".toList
        ++ trimWS (collapseAux false
            ((spans.map (fun s => ' ' :: renderSpanIn ContainerKind.stageDir s ++ [' '])).flatten))
        ++ "]*".toList := by
  simp only [TextContainer.to_markdown, TextContainer.to_markdown_full, mdStep_fold,
    List.nil_append]

/-- The rendered Sfx container is the wrapped collapse-trim of its
space-interleaved span texts. -/
theorem to_markdown_sfx (spans : List TextSpan) :
    TextContainer.to_markdown ⟨ContainerKind.sfx, spans⟩
      = "> *[sfx: ".toList
        ++ trimWS (collapseAux false
            ((spans.map (fun s => ' ' :: renderSpanIn ContainerKind.sfx s ++ [' '])).flatten))
        ++ "]*".toList := by
  simp only [TextContainer.to_markdown, TextContainer.to_markdown_full, mdStep_fold,
    List.nil_append]

/-- The rendered ListenerDialogue container is the wrapped collapse-trim
of its space-interleaved span texts. -/
theorem to_markdown_listener (spans : List TextSpan) :
    TextContainer.to_markdown ⟨ContainerKind.listenerDialogue, spans⟩
      = "> *« ".toList
        ++ trimWS (collapseAux false
            ((spans.map (fun s =>
                ' ' :: renderSpanIn ContainerKind.listenerDialogue s ++ [' '])).flatten))
        ++ " »*".toList := by
  simp only [TextContainer.to_markdown, TextContainer.to_markdown_full, mdStep_fold,
    List.nil_append]

/-- Stripping the asterisks of a rendered inline direction always
leaves exactly the parenthesized text. -/
theorem strip_inline (cnt : List Char) :
    trimMatchesStar (TextSpan.inline cnt).to_markdown = '(' :: cnt ++ [')'] := by
  show ((('*' :: '(' :: (cnt ++ [')', '*'])).dropWhile (fun c => c = '*')).reverse.dropWhile
      (fun c => c = '*')).reverse = '(' :: cnt ++ [')']
  rw [List.dropWhile_cons, if_pos (by decide), List.dropWhile_cons, if_neg (by decide)]
  rw [show ('(' :: (cnt ++ [')', '*'])).reverse = '*' :: ')' :: ('(' :: cnt).reverse from by simp]
  rw [List.dropWhile_cons, if_pos (by decide), List.dropWhile_cons, if_neg (by decide)]
  simp

/-- C5: inside a Spoken container a Normal span renders individually
bolded, an InlineDirection span renders unchanged as an asterisked
parenthesis, and an Emphasis span is also bolded while the container
emits one warning per such span whose context is the space-joined raw
contents of all its spans; on the concrete container with spans
InlineDirection quietly and Normal hi the rendering is exactly the
claimed text. -/
theorem claim_C5 :
    (∀ cnt : List Char, renderSpanIn ContainerKind.spoken (TextSpan.normal cnt)
        = "**".toList ++ cnt ++ "**".toList) ∧
    (∀ cnt : List Char, renderSpanIn ContainerKind.spoken (TextSpan.inline cnt)
        = "*(".toList ++ cnt ++ ")*".toList) ∧
    (∀ cnt : List Char, renderSpanIn ContainerKind.spoken (TextSpan.emphasis cnt)
        = "**/".toList ++ cnt ++ "/**".toList) ∧
    (∀ spans : List TextSpan,
      (TextContainer.to_markdown_full ⟨ContainerKind.spoken, spans⟩).2
        = (spans.filter (fun s => decide (s.kind = SpanKind.emphasis))).map
            (fun s => (s.to_markdown,
              List.intercalate " ".toList (spans.map TextSpan.contents)))) ∧
    TextContainer.to_markdown
        ⟨ContainerKind.spoken, [TextSpan.inline "quietly".toList, TextSpan.normal "hi".toList]⟩
      = "*(quietly)* **hi**".toList := by
  refine ⟨fun cnt => rfl, fun cnt => rfl, ?_, ?_, by decide⟩
  · intro cnt
    show ('*' :: '*' :: ('/' :: (cnt ++ ['/'])) ++ ['*', '*'] : List Char)
      = '*' :: '*' :: '/' :: (cnt ++ ['/', '*', '*'])
    simp
  · intro spans
    rw [to_markdown_full_snd]
    have hpred : (fun s => decide
        ((⟨ContainerKind.spoken, spans⟩ : TextContainer).kind = ContainerKind.spoken
          ∧ s.kind = SpanKind.emphasis))
        = (fun s : TextSpan => decide (s.kind = SpanKind.emphasis)) := by
      funext s
      simp
    rw [hpred]

/-- Map of wrapped span texts as a two-stage map, used to apply the
joining law. -/
theorem map_wrap_split (k : ContainerKind) (spans : List TextSpan) :
    spans.map (fun s => ' ' :: renderSpanIn k s ++ [' '])
      = ((spans.map (renderSpanIn k)).map (fun p => ' ' :: p ++ [' '])) := by
  rw [List.map_map]
  rfl

/-- Clean hypotheses transfer through the render map. -/
theorem clean_map (k : ContainerKind) (spans : List TextSpan)
    (h : ∀ s ∈ spans, cleanPiece (renderSpanIn k s) = true) :
    ∀ p ∈ spans.map (renderSpanIn k), cleanPiece p = true := by
  intro p hp
  obtain ⟨s, hs, rfl⟩ := List.mem_map.mp hp
  exact h s hs

/-- C6: in StageDir, Sfx and ListenerDialogue containers an inline
direction is rendered with its wrapping asterisks stripped, as a plain
parenthesis, and, whenever each rendered span text is a clean piece
(non-empty, no whitespace at the ends, single internal spaces), the
container renders as the span texts joined with a single space between
every pair, wrapped per kind. -/
theorem claim_C6 :
    (∀ cnt : List Char,
        renderSpanIn ContainerKind.stageDir (TextSpan.inline cnt) = '(' :: cnt ++ [')'] ∧
        renderSpanIn ContainerKind.sfx (TextSpan.inline cnt) = '(' :: cnt ++ [')'] ∧
        renderSpanIn ContainerKind.listenerDialogue (TextSpan.inline cnt)
          = '(' :: cnt ++ [')']) ∧
    (∀ spans : List TextSpan,
        (∀ s ∈ spans, cleanPiece (renderSpanIn ContainerKind.stageDir s) = true) →
        TextContainer.to_markdown ⟨ContainerKind.stageDir, spans⟩
          = "> *[".toList
            ++ List.intercalate " ".toList (spans.map (renderSpanIn ContainerKind.stageDir))
            ++ "]*".toList) ∧
    (∀ spans : List TextSpan,
        (∀ s ∈ spans, cleanPiece (renderSpanIn ContainerKind.sfx s) = true) →
        TextContainer.to_markdown ⟨ContainerKind.sfx, spans⟩
          = "> *[sfx: ".toList
            ++ List.intercalate " ".toList (spans.map (renderSpanIn ContainerKind.sfx))
            ++ "]*".toList) ∧
    (∀ spans : List TextSpan,
        (∀ s ∈ spans, cleanPiece (renderSpanIn ContainerKind.listenerDialogue s) = true) →
        TextContainer.to_markdown ⟨ContainerKind.listenerDialogue, spans⟩
          = "> *« ".toList
            ++ List.intercalate " ".toList
                (spans.map (renderSpanIn ContainerKind.listenerDialogue))
            ++ " »*".toList) := by
  refine ⟨fun cnt => ⟨strip_inline cnt, strip_inline cnt, strip_inline cnt⟩, ?_, ?_, ?_⟩
  · intro spans h
    rw [to_markdown_stageDir, map_wrap_split,
      joinClean (spans.map (renderSpanIn ContainerKind.stageDir)) (clean_map _ spans h)]
  · intro spans h
    rw [to_markdown_sfx, map_wrap_split,
      joinClean (spans.map (renderSpanIn ContainerKind.sfx)) (clean_map _ spans h)]
  · intro spans h
    rw [to_markdown_listener, map_wrap_split,
      joinClean (spans.map (renderSpanIn ContainerKind.listenerDialogue)) (clean_map _ spans h)]

/-- Witness for C6 at a concrete StageDir container. -/
theorem claim_C6_witness :
    (∀ s ∈ [TextSpan.normal "some text".toList, TextSpan.inline "loudly".toList],
        cleanPiece (renderSpanIn ContainerKind.stageDir s) = true) ∧
      TextContainer.to_markdown ⟨ContainerKind.stageDir,
          [TextSpan.normal "some text".toList, TextSpan.inline "loudly".toList]⟩
        = "> *[some text (loudly)]*".toList := by
  refine ⟨by decide, ?_⟩
  have h := claim_C6.2.1
    [TextSpan.normal "some text".toList, TextSpan.inline "loudly".toList] (by decide)
  exact h.trans (by decide)

/-- idxsOf over a list that avoids the character. -/
theorem idxsOf_none (ch : Char) (l : List Char) (h : ∀ c ∈ l, c ≠ ch) :
    idxsOf ch l = [] := by
  induction l with
  | nil => rfl
  | cons c cs ih =>
    have hc : c ≠ ch := h c (by simp)
    have ih2 := ih (fun d hd => h d (List.mem_cons_of_mem _ hd))
    simp [idxsOf, hc, ih2]

/-- idxsOf over an append: the right indices shift by the left length. -/
theorem idxsOf_append (ch : Char) (l1 l2 : List Char) :
    idxsOf ch (l1 ++ l2) = idxsOf ch l1 ++ (idxsOf ch l2).map (· + l1.length) := by
  induction l1 with
  | nil => simp [idxsOf]
  | cons c cs ih =>
    have hmaps : ∀ X : List Nat, (X.map (· + cs.length)).map (· + 1)
        = X.map (· + (cs.length + 1)) := by
      intro X
      rw [List.map_map]
      apply List.map_congr_left
      intro x _
      simp [Function.comp, Nat.add_assoc]
    by_cases hc : c = ch
    · simp [idxsOf, hc, ih, List.map_append, hmaps]
    · simp [idxsOf, hc, ih, List.map_append, hmaps]

/-- findCmd skips a backslash-free prefix. -/
theorem findCmd_skip (pre rest : List Char) (h : ∀ c ∈ pre, c ≠ '\\') :
    findCmd (pre ++ rest) = findCmd rest := by
  induction pre with
  | nil => rfl
  | cons c cs ih =>
    have hc : c ≠ '\\' := h c (by simp)
    have ih2 := ih (fun d hd => h d (List.mem_cons_of_mem _ hd))
    rw [List.cons_append]
    simp only [findCmd, if_neg hc]
    exact ih2

/-- The span regex match at a well-formed command fragment returns
exactly the command name and the argument. -/
theorem spanMatchAt_exact (cmd arg post : List Char)
    (hne : cmd ≠ [])
    (hcmd : ∀ c ∈ cmd, c ≠ '{' ∧ c ≠ '}' ∧ c ≠ '\n')
    (harg : ∀ c ∈ arg, c ≠ '{' ∧ c ≠ '}' ∧ c ≠ '\n')
    (hpost : ∀ c ∈ post, c ≠ '{' ∧ c ≠ '}' ∧ c ≠ '\n') :
    spanMatchAt (cmd ++ '{' :: (arg ++ '}' :: post)) = some (cmd, arg) := by
  have hnl : ∀ c ∈ cmd ++ '{' :: (arg ++ '}' :: post), (c != '\n') = true := by
    intro c hcm
    simp only [List.mem_append, List.mem_cons] at hcm
    rcases hcm with h1 | h1 | h1 | h1 | h1
    · simp [(hcmd c h1).2.2]
    · subst h1; decide
    · simp [(harg c h1).2.2]
    · subst h1; decide
    · simp [(hpost c h1).2.2]
  have hw1 : (cmd ++ '{' :: (arg ++ '}' :: post)).takeWhile (fun c => c != '\n')
      = cmd ++ '{' :: (arg ++ '}' :: post) := takeWhile_all _ _ hnl
  have hXbr : idxsOf '{' (arg ++ '}' :: post) = [] := by
    rw [idxsOf_append, idxsOf_none '{' arg (fun c hc => (harg c hc).1)]
    rw [show idxsOf '{' ('}' :: post) = (idxsOf '{' post).map (· + 1) from by simp [idxsOf]]
    rw [idxsOf_none '{' post (fun c hc => (hpost c hc).1)]
    simp
  have hobr : idxsOf '{' (cmd ++ '{' :: (arg ++ '}' :: post)) = [cmd.length] := by
    rw [idxsOf_append]
    rw [show idxsOf '{' ('{' :: (arg ++ '}' :: post))
        = 0 :: (idxsOf '{' (arg ++ '}' :: post)).map (· + 1) from by simp [idxsOf]]
    rw [hXbr, idxsOf_none '{' cmd (fun c hc => (hcmd c hc).1)]
    simp
  have hcbr : idxsOf '}' (arg ++ '}' :: post) = [arg.length] := by
    rw [idxsOf_append, idxsOf_none '}' arg (fun c hc => (harg c hc).2.1)]
    rw [show idxsOf '}' ('}' :: post) = 0 :: (idxsOf '}' post).map (· + 1) from by
      simp [idxsOf]]
    rw [idxsOf_none '}' post (fun c hc => (hpost c hc).2.1)]
    simp
  have hlen : 1 ≤ cmd.length := List.length_pos.mpr hne
  have hdrop : (cmd ++ '{' :: (arg ++ '}' :: post)).drop (cmd.length + 1)
      = arg ++ '}' :: post := by
    rw [show cmd ++ '{' :: (arg ++ '}' :: post) = (cmd ++ ['{']) ++ (arg ++ '}' :: post) from by
        simp]
    rw [show cmd.length + 1 = (cmd ++ ['{']).length from by simp]
    exact drop_len_append _ _
  have htake : (cmd ++ '{' :: (arg ++ '}' :: post)).take cmd.length = cmd :=
    take_len_append cmd _
  have hw2 : (arg ++ '}' :: post).takeWhile (fun c => c != '\n') = arg ++ '}' :: post := by
    apply takeWhile_all
    intro c hcm
    simp only [List.mem_append, List.mem_cons] at hcm
    rcases hcm with h1 | h1 | h1
    · simp [(harg c h1).2.2]
    · subst h1; decide
    · simp [(hpost c h1).2.2]
  have htake2 : (arg ++ '}' :: post).take arg.length = arg := take_len_append arg _
  simp only [spanMatchAt]
  rw [hw1, hobr]
  rw [show ([cmd.length].filter (fun j => decide (1 ≤ j))) = [cmd.length] from by
    simp [List.filter_cons, hlen]]
  simp only [List.reverse_singleton, List.findSome?_cons]
  rw [hdrop, hw2, hcbr]
  simp only [List.getLast?_singleton]
  rw [htake, htake2]

/-- findCmd on a prose-command-prose fragment finds the embedded
command and its argument. -/
theorem findCmd_fragment (pre cmd arg post : List Char)
    (hpre : ∀ c ∈ pre, c ≠ '\\')
    (hne : cmd ≠ [])
    (hcmd : ∀ c ∈ cmd, c ≠ '{' ∧ c ≠ '}' ∧ c ≠ '\n')
    (harg : ∀ c ∈ arg, c ≠ '{' ∧ c ≠ '}' ∧ c ≠ '\n')
    (hpost : ∀ c ∈ post, c ≠ '{' ∧ c ≠ '}' ∧ c ≠ '\n') :
    findCmd (pre ++ '\\' :: (cmd ++ '{' :: (arg ++ '}' :: post))) = some (cmd, arg) := by
  rw [findCmd_skip pre _ hpre]
  rw [show findCmd ('\\' :: (cmd ++ '{' :: (arg ++ '}' :: post)))
      = (match spanMatchAt (cmd ++ '{' :: (arg ++ '}' :: post)) with
         | some r => some r
         | none => findCmd (cmd ++ '{' :: (arg ++ '}' :: post))) from by
    simp [findCmd]]
  rw [spanMatchAt_exact cmd arg post hne hcmd harg hpost]

/-- C10: a fragment made of prose with one embedded `direct` or `ul`
command (prose and argument free of backslashes, braces and line feeds,
the whole fragment fixed under normalization) classifies successfully
into just the span built from the command, the prose being silently
discarded with no error reported. -/
theorem claim_C10 :
    (∀ pre arg post : List Char,
      (∀ c ∈ pre, c ≠ '\\' ∧ c ≠ '{' ∧ c ≠ '}' ∧ c ≠ '\n') →
      (∀ c ∈ arg, c ≠ '{' ∧ c ≠ '}' ∧ c ≠ '\n') →
      (∀ c ∈ post, c ≠ '{' ∧ c ≠ '}' ∧ c ≠ '\n') →
      pre ≠ [] →
      Tex.unescaped (pre ++ '\\' :: ("direct".toList ++ '{' :: (arg ++ '}' :: post)))
        = pre ++ '\\' :: ("direct".toList ++ '{' :: (arg ++ '}' :: post)) →
      TextSpan.try_from (pre ++ '\\' :: ("direct".toList ++ '{' :: (arg ++ '}' :: post)))
        = PResult.ok (TextSpan.inline (Tex.unescaped (trimWS arg)))) ∧
    (∀ pre arg post : List Char,
      (∀ c ∈ pre, c ≠ '\\' ∧ c ≠ '{' ∧ c ≠ '}' ∧ c ≠ '\n') →
      (∀ c ∈ arg, c ≠ '{' ∧ c ≠ '}' ∧ c ≠ '\n') →
      (∀ c ∈ post, c ≠ '{' ∧ c ≠ '}' ∧ c ≠ '\n') →
      pre ≠ [] →
      Tex.unescaped (pre ++ '\\' :: ("ul".toList ++ '{' :: (arg ++ '}' :: post)))
        = pre ++ '\\' :: ("ul".toList ++ '{' :: (arg ++ '}' :: post)) →
      TextSpan.try_from (pre ++ '\\' :: ("ul".toList ++ '{' :: (arg ++ '}' :: post)))
        = PResult.ok (TextSpan.emphasis (Tex.unescaped (trimWS arg)))) := by
  constructor
  · intro pre arg post hpre harg hpost hne hu
    have hfind := findCmd_fragment pre "direct".toList arg post
      (fun c hc => (hpre c hc).1) (by decide) (by decide) harg hpost
    simp only [TextSpan.try_from, hu, hfind, if_true]
  · intro pre arg post hpre harg hpost hne hu
    have hfind := findCmd_fragment pre "ul".toList arg post
      (fun c hc => (hpre c hc).1) (by decide) (by decide) harg hpost
    have hdiff : ("ul".toList : List Char) ≠ "direct".toList := by decide
    simp only [TextSpan.try_from, hu, hfind, hdiff, if_true, if_false]

/-- Witness for C10 at the fragment of prose around a direct command. -/
theorem claim_C10_witness :
    ((∀ c ∈ "text ".toList, c ≠ '\\' ∧ c ≠ '{' ∧ c ≠ '}' ∧ c ≠ '\n') ∧
      Tex.unescaped ("text ".toList
          ++ '\\' :: ("direct".toList ++ '{' :: ("x".toList ++ '}' :: " more".toList)))
        = "text ".toList
          ++ '\\' :: ("direct".toList ++ '{' :: ("x".toList ++ '}' :: " more".toList))) ∧
    TextSpan.try_from ("text ".toList
        ++ '\\' :: ("direct".toList ++ '{' :: ("x".toList ++ '}' :: " more".toList)))
      = PResult.ok (TextSpan.inline (Tex.unescaped (trimWS "x".toList))) :=
  ⟨⟨by decide, by decide⟩,
    claim_C10.1 "text ".toList "x".toList " more".toList
      (by decide) (by decide) (by decide) (by decide) (by decide)⟩
